import Mathlib

/-!
# Verification of the Discourse agent-service core

A shallow embedding, in Lean 4, of the run orchestrator, event bus,
tool broker and dedup cache of the Discourse repository
(`apps/agent-service/src`), together with proofs about their behaviour.

Strings from the TypeScript source are modelled as `List Char`
(JS strings are sequences of UTF-16 code units; the names and prompts
handled by this service are plain text, for which `List Char` is a
faithful model).  External collaborators (the OpenAI SDK, the MCP SDK
clients, `JSON.parse`/`JSON.stringify`, the database driver) are
modelled as explicit function parameters; everything else is translated
from the source.
-/

set_option autoImplicit false

namespace Discourse

/-! ## Character-level helpers shared by the broker and the routes -/

/-- JS `String.prototype.toLowerCase`, restricted to its ASCII action
(the tool names and allow-list patterns in this repository are ASCII):
code points 65-90 are shifted up by 32, everything else is unchanged. -/
def jsToLower (c : Char) : Char :=
  c.toLower

/-- One character of the global regex replace of every character outside
`a-zA-Z0-9_` by an underscore, in `McpBroker.toOpenAiFunctionName`. -/
def sanitizeChar (c : Char) : Char :=
  if c.isAlphanum ∨ c = '_' then c else '_'

/-- One character of the global replace of hyphens by underscores applied
to the server segment in `McpBroker.toOpenAiFunctionName`. -/
def hyphenToUnderscore (c : Char) : Char :=
  if c = '-' then '_' else c

/-- One character of the global replace of underscores by hyphens applied
to the decoded server segment in `McpBroker.fromOpenAiFunctionName`. -/
def underscoreToHyphen (c : Char) : Char :=
  if c = '_' then '-' else c

/-- JS `String.prototype.split` with the two-character separator `"__"`:
greedy left-to-right scan, non-overlapping matches.  `splitUU l` is
`l.split("__")` as a list of segments. -/
def splitUU : List Char → List (List Char)
  | [] => [[]]
  | '_' :: '_' :: r => [] :: splitUU r
  | c :: r =>
    match splitUU r with
    | [] => [[c]]
    | h :: t => (c :: h) :: t

/-- JS `Array.prototype.join("__")`. -/
def joinUU : List (List Char) → List Char
  | [] => []
  | [p] => p
  | p :: ps => p ++ '_' :: '_' :: joinUU ps

/-- A segment that survives splitting on `"__"` intact when used as the
middle segment of `a ++ "__" ++ b`: it contains no `"__"` substring and
does not end in `'_'`. -/
def goodSeg : List Char → Bool
  | [] => true
  | ['_'] => false
  | '_' :: '_' :: _ => false
  | '_' :: c :: r => goodSeg (c :: r)
  | _ :: r => goodSeg r

/-- Server names for which the broker's name encoding is reversible:
ASCII alphanumerics and hyphens, no two adjacent hyphens, no trailing
hyphen. -/
def goodServer : List Char → Bool
  | [] => true
  | ['-'] => false
  | '-' :: '-' :: _ => false
  | '-' :: c :: r => goodServer (c :: r)
  | c :: r => c.isAlphanum && goodServer r

/-- Tool names for which the broker's name encoding is reversible:
ASCII alphanumerics and underscores. -/
def goodTool (tool : List Char) : Bool :=
  tool.all fun c => c.isAlphanum || c = '_'

/-! ## `McpBroker` fully-qualified name codec (`mcp/broker.ts`) -/

/-- `McpBroker.toOpenAiFunctionName`: hyphens of the server segment become
underscores, the template `mcp__SERVER__TOOL` is assembled, every character
outside `a-zA-Z0-9_` is replaced by an underscore, and the result is capped
with `.slice(0, 64)`. -/
def toOpenAiFunctionName (server tool : List Char) : List Char :=
  (("mcp__".data ++ server.map hyphenToUnderscore ++ "__".data ++ tool).map
    sanitizeChar).take 64

/-- `McpBroker.fromOpenAiFunctionName`: checks the `mcp__` namespace,
splits on `"__"`, requires at least three segments, maps the server
segment's underscores back to hyphens and re-joins the remaining
segments as the tool name.  Thrown `Error`s are modelled as `.error`. -/
def fromOpenAiFunctionName (fn : List Char) : Except String (List Char × List Char) :=
  if "mcp__".data.isPrefixOf fn then
    let parts := splitUU fn
    if parts.length < 3 then
      .error ("Malformed MCP function name: " ++ String.mk fn)
    else
      .ok ((parts.getD 1 []).map underscoreToHyphen, joinUU (parts.drop 2))
  else
    .error ("Not an MCP function: " ++ String.mk fn)

/-- `McpBroker.fqn`: the internal registry key `` `${server}.${tool}` ``. -/
def fqnOf (server tool : List Char) : List Char :=
  server ++ '.' :: tool

instance exceptDecEq {ε α : Type} [DecidableEq ε] [DecidableEq α] :
    DecidableEq (Except ε α)
  | .ok a, .ok b =>
    if h : a = b then isTrue (by rw [h]) else isFalse (fun hc => h (by injection hc))
  | .ok _, .error _ => isFalse fun hc => Except.noConfusion hc
  | .error _, .ok _ => isFalse fun hc => Except.noConfusion hc
  | .error a, .error b =>
    if h : a = b then isTrue (by rw [h]) else isFalse (fun hc => h (by injection hc))

/-! ## Allow-list matching (`globMatch` and `getOpenAIFunctionTools`,
`mcp/broker.ts`)

The dynamically built regex `^ p0 .* p1 .* ... pk $` (pattern split on
`'*'`, pieces escaped literally, joined by `.*`, anchored both ends) is
embedded by its matching semantics: `rxMatch pieces name` is true exactly
when `name` decomposes as `p0 ++ w1 ++ p1 ++ ... ++ wk ++ pk`. -/

/-- JS `String.prototype.trim` (the patterns handled here use ASCII
whitespace, for which `Char.isWhitespace` agrees with JS). -/
def jsTrim (l : List Char) : List Char :=
  ((l.dropWhile Char.isWhitespace).reverse.dropWhile Char.isWhitespace).reverse

/-- JS `String.prototype.split` with a single-character separator. -/
def splitOnChar (sep : Char) : List Char → List (List Char)
  | [] => [[]]
  | c :: r =>
    if c = sep then [] :: splitOnChar sep r
    else
      match splitOnChar sep r with
      | [] => [[c]]
      | h :: t => (c :: h) :: t

/-- JS `Array.prototype.join` with a single-character separator. -/
def joinChar (sep : Char) : List (List Char) → List Char
  | [] => []
  | [x] => x
  | x :: xs => x ++ sep :: joinChar sep xs

/-- Matcher for the unanchored middle `.* p1 .* p2 ... .* pk $` part of the
compiled glob regex: true when `n = w1 ++ p1 ++ ... ++ wk ++ pk`. -/
def midMatch (ps : List (List Char)) (n : List Char) : Bool :=
  match ps, n with
  | [], n => n.isEmpty
  | p :: ps, n =>
    (p.isPrefixOf n && midMatch ps (n.drop p.length)) ||
      (match n with
       | [] => false
       | _ :: n1 => midMatch (p :: ps) n1)
termination_by n.length + ps.length
decreasing_by
  · simp only [List.length_drop, List.length_cons]; omega
  · simp only [List.length_cons]; omega

/-- The anchored regex `^ p0 .* p1 .* ... pk $` built by `globMatch` from
the pieces of a pattern split on `'*'`. -/
def rxMatch (pieces : List (List Char)) (n : List Char) : Bool :=
  match pieces with
  | [] => n.isEmpty
  | p :: ps => p.isPrefixOf n && midMatch ps (n.drop p.length)

/-- `globMatch(name, patterns)` of `mcp/broker.ts`: the name is lowercased;
each pattern is trimmed and lowercased (`pat`), an empty pattern matches
nothing, a lone `*` matches everything, and otherwise the pattern is
compiled to the anchored wildcard regex. -/
def globMatch (name : List Char) (patterns : List (List Char)) : Bool :=
  patterns.any fun p =>
    if ((jsTrim p).map jsToLower).isEmpty then false
    else if (jsTrim p).map jsToLower = ['*'] then true
    else rxMatch (splitOnChar '*' ((jsTrim p).map jsToLower)) (name.map jsToLower)

/-- The broker's tool registry, modelled as the association list underlying
`this.tools` (key `fqn server tool`, value `(server, def.name)`). -/
def ToolRegistry : Type := List (List Char × List Char)

/-- The pattern normalization at the head of
`McpBroker.getOpenAIFunctionTools`: the allow-list entries are joined on
commas, re-split on commas, trimmed and cleared of empties. -/
def normalizePatterns (allowedPatterns : List (List Char)) : List (List Char) :=
  ((splitOnChar ',' (joinChar ',' allowedPatterns)).map jsTrim).filter
    fun s => ¬ s.isEmpty

/-- `McpBroker.getOpenAIFunctionTools`: every registered tool whose
fully-qualified name matches the normalized allow-list is emitted under
its OpenAI-compatible function name.  (The emitted description and JSON
schema do not matter to any claim; the output is modelled as the list of
emitted function names.) -/
def getOpenAIFunctionTools (tools : ToolRegistry) (allowedPatterns : List (List Char)) :
    List (List Char) :=
  (tools.filter fun t => globMatch (fqnOf t.1 t.2) (normalizePatterns allowedPatterns)).map
    fun t => toOpenAiFunctionName t.1 t.2

/-! ## `McpBroker.callByOpenAiName` (`mcp/broker.ts`)

JSON values, `JSON.parse`, the Gmail argument fixup and the MCP SDK
client are external to the broker's routing logic and appear as explicit
parameters.  A provider is "contacted" exactly when `client.callTool` is
reached; the returned trace records those contacts and whether the
reconnect pass (`await this.start()`) ran. -/

/-- The MCP SDK's `callTool` result before normalization: `content` and
`isError` may each be absent. -/
structure RawResult (J : Type) where
  content : Option J
  isError : Option Bool

/-- The transport-agnostic shape the broker returns:
`content ?? null` and `isError ?? false`. -/
structure CallResult (J : Type) where
  content : Option J
  isError : Bool
deriving DecidableEq

/-- The broker's surroundings: connected clients, the client table after a
reconnect pass, `JSON.parse` (`none` models a throw), the empty-object
literal, the Gmail argument fixup, and the SDK `callTool`. -/
structure BrokerEnv (J : Type) where
  clients : List String
  clientsAfterReconnect : List String
  parseJson : String → Option J
  emptyObj : J
  fixGmailArgs : J → J
  callTool : String → String → J → RawResult J

/-- What `callByOpenAiName` did besides returning: whether it re-ran
discovery and which provider calls it dispatched. -/
structure CallTrace (J : Type) where
  reconnected : Bool
  providerCalls : List (String × String × J)
deriving DecidableEq

/-- The Gmail `download_attachment` special case of `callByOpenAiName`:
`server === 'google-workspace' && tool.endsWith('download_attachment')`
routes the parsed arguments through `fixGmailAttachmentDownloadArgs`. -/
def gmailAdjust {J : Type} (env : BrokerEnv J) (server : String) (toolL : List Char)
    (args : J) : J :=
  if server = "google-workspace" ∧ "download_attachment".data.isSuffixOf toolL then
    env.fixGmailArgs args
  else args

/-- The tail of `callByOpenAiName` once a connected client is found:
parse the arguments (an empty or missing string becomes the empty
object), apply the Gmail fixup where applicable, dispatch
`client.callTool`, and normalize the response. -/
def callDispatch {J : Type} (env : BrokerEnv J) (server tool : String)
    (toolL : List Char) (argsJson : String) (reconnected : Bool) :
    Except String (CallResult J) × CallTrace J :=
  match (if argsJson = "" then some env.emptyObj else env.parseJson argsJson) with
  | none => (.error "Invalid JSON in \"args\"", ⟨reconnected, []⟩)
  | some args0 =>
    let args := gmailAdjust env server toolL args0
    let raw := env.callTool server tool args
    (.ok ⟨raw.content, raw.isError.getD false⟩, ⟨reconnected, [(server, tool, args)]⟩)

/-- `McpBroker.callByOpenAiName(openaiFunctionName, argsJson)`: decode the
name, look up the client — re-running discovery once when it is missing —
then parse and dispatch.  Thrown `Error`s are modelled as `.error`. -/
def callByOpenAiName {J : Type} (env : BrokerEnv J) (fn argsJson : String) :
    Except String (CallResult J) × CallTrace J :=
  match fromOpenAiFunctionName fn.data with
  | .error e => (.error e, ⟨false, []⟩)
  | .ok (serverL, toolL) =>
    let server := String.mk serverL
    let tool := String.mk toolL
    if server ∈ env.clients then
      callDispatch env server tool toolL argsJson false
    else if server ∈ env.clientsAfterReconnect then
      callDispatch env server tool toolL argsJson true
    else
      (.error ("MCP server not connected: " ++ server), ⟨true, []⟩)

/-! ## The tool-calling loop (`adapters/OpenAIAdapter.ts`)

The completion service (`this.client.chat.completions.create`) is the
`oracle` parameter, indexed by the number of completed loop iterations:
`.error` models a thrown request, `.ok none` a response without a choice,
`.ok (some resp)` a response whose message has `content` (already
defaulted to `""` as in `message.content || ''`) and `tool_calls`.
Executing one tool call (the JSON argument massaging plus
`mcpBroker.callByOpenAiName` plus `JSON.stringify` of the result) is the
`exec` parameter: `.ok s` is the stringified result, `.error e` a thrown
error's message. -/

/-- One tool call of a model response. -/
structure ToolCallT where
  id : String
  name : String
  arguments : String
deriving DecidableEq

/-- One model response: `message.content || ''` and `message.tool_calls`. -/
structure ModelResponse where
  content : String
  toolCalls : List ToolCallT
deriving DecidableEq

/-- The chat message list the adapter maintains. -/
inductive Msg where
  | system (content : String)
  | user (content : String)
  | assistant (content : String) (toolCalls : List ToolCallT)
  | tool (content : String) (tool_call_id : String)
deriving DecidableEq

/-- The events the adapter and the run route publish (`onEvent` /
`emitRunEvent`), with the payload fields the claims speak about. -/
inductive Ev where
  | plan
  | toolCallEvt (id name arguments : String)
  | token (text : String)
  | message (content : String)
  | done
  | error (msg : String)
deriving DecidableEq

/-- `JSON.stringify(\x7b error: msg \x7d)` for a plain message string. -/
def errorContent (msg : String) : String :=
  "\x7b\"error\":\"" ++ msg ++ "\"\x7d"

/-- The streaming of a final response: one `token` event per
space-separated word (each re-suffixed with a space), skipped entirely
when the content is empty. -/
def tokenEvents (content : String) : List Ev :=
  if content = "" then []
  else (splitOnChar ' ' content.data).map fun w => Ev.token (String.mk (w ++ [' ']))

/-- The tool-result message one tool call contributes: the stringified
result on success, the error-content wrapper when execution threw. -/
def execResultMsg (exec : ToolCallT → Except String String) (c : ToolCallT) : Msg :=
  match exec c with
  | .ok s => .tool s c.id
  | .error e => .tool (errorContent e) c.id

/-- The body of `OpenAIAdapter.chat`: the `while (stepCount < maxSteps)`
loop with its surrounding try/catch.  `fuel` is `maxSteps - stepCount`;
`step` counts completed iterations (it indexes the oracle).  Returns the
events published through `onEvent`, the final message list, and the
returned/thrown outcome: `.ok final` for a normal return, `.error e` for
a rethrown model-request failure. -/
def chatLoop (oracle : Nat → Except String (Option ModelResponse))
    (exec : ToolCallT → Except String String) :
    Nat → Nat → List Msg → List Ev × List Msg × Except String String
  | _, 0, msgs =>
    ([Ev.error "Maximum steps exceeded"], msgs, .ok "Maximum steps exceeded")
  | step, fuel + 1, msgs =>
    match oracle step with
    | .error e => ([Ev.error e], msgs, .error e)
    | .ok none => chatLoop oracle exec (step + 1) fuel msgs
    | .ok (some resp) =>
      match resp.toolCalls with
      | [] =>
        (tokenEvents resp.content ++ [Ev.message resp.content, Ev.done], msgs,
          .ok resp.content)
      | tc :: tcs =>
        let calls := tc :: tcs
        let callEvts := calls.map fun c => Ev.toolCallEvt c.id c.name c.arguments
        let msgs1 := msgs ++ Msg.assistant resp.content calls :: calls.map (execResultMsg exec)
        let (evs, msgsF, r) := chatLoop oracle exec (step + 1) fuel msgs1
        (callEvts ++ evs, msgsF, r)

/-- `OpenAIAdapter.chat` on an initial message list. -/
def chat (oracle : Nat → Except String (Option ModelResponse))
    (exec : ToolCallT → Except String String) (messages : List Msg) (maxSteps : Nat) :
    List Ev × List Msg × Except String String :=
  chatLoop oracle exec 0 maxSteps messages

/-! ## The run route (`routes/runs.ts`) -/

/-- A validated create-run request together with the values the handler
draws from its surroundings: `Date.now()` at handling time and the
`uuidv4()` generated for this request. -/
structure RunRequest where
  userId : String
  provider : String
  replyToMessageId : Option String
  channelId : Option String
  threadId : Option String
  prompt : String
  now : Nat
  newRunId : String
deriving DecidableEq

/-- One `requestCache` entry. -/
structure CacheEntry where
  timestamp : Nat
  runId : String
deriving DecidableEq

/-- The audit record inserted into the `runs` table at creation. -/
structure RunRecord where
  discordId : String
  channelId : Option String
  threadId : Option String
  prompt : String
  status : String
deriving DecidableEq

/-- The immediate response of `POST /runs`. -/
structure CreateRunResponse where
  id : String
  status : String
deriving DecidableEq

/-- The handler's state: the dedup cache (a JS `Map`, modelled as an
insertion-ordered association list with unique keys maintained by
`mapSet`) and the run records inserted so far. -/
structure RouteState where
  cache : List (String × CacheEntry)
  records : List RunRecord
deriving DecidableEq

/-- `requestCache.get`. -/
def mapGet (m : List (String × CacheEntry)) (k : String) : Option CacheEntry :=
  (m.find? fun e => e.1 = k).map fun e => e.2

/-- `requestCache.set`: replace the first binding in place, else append. -/
def mapSet (m : List (String × CacheEntry)) (k : String) (v : CacheEntry) :
    List (String × CacheEntry) :=
  match m with
  | [] => [(k, v)]
  | (k1, v1) :: rest =>
    if k1 = k then (k, v) :: rest else (k1, v1) :: mapSet rest k v

/-- The dedup fingerprint of `routes/runs.ts`: requester id, provider,
reply target, channel and the first 100 prompt characters, joined with
colons. -/
def dedupKey (r : RunRequest) : String :=
  String.intercalate ":"
    [r.userId, r.provider, r.replyToMessageId.getD "noMessage",
      r.channelId.getD "noChannel", String.mk (r.prompt.data.take 100)]

/-- The dedup window (`DEDUP_WINDOW_MS = 5000`). -/
def DEDUP_WINDOW_MS : Nat := 5000

/-- The non-duplicate path of the `POST /runs` handler: cache insert,
sweep of entries older than twice the window, audit insert with status
`running`, immediate response with the fresh id. -/
def handleCreateRunFresh (st : RouteState) (r : RunRequest) (key : String) (now : Nat) :
    CreateRunResponse × RouteState :=
  let cache1 := mapSet st.cache key ⟨now, r.newRunId⟩
  let cache2 := cache1.filter fun e => ¬ now - e.2.timestamp > DEDUP_WINDOW_MS * 2
  let record : RunRecord :=
    { discordId := r.userId, channelId := r.channelId, threadId := r.threadId,
      prompt := r.prompt, status := "running" }
  ({ id := r.newRunId, status := "created" },
    { cache := cache2, records := st.records ++ [record] })

/-- The synchronous part of the `POST /runs` handler: the dedup check, the
cache insert with its opportunistic sweep, the initial `runs` insert with
status `running`, and the immediate `\x7bid, status: "created"\x7d`
response.  (The asynchronous continuation is `processRunAsync` below.) -/
def handleCreateRun (st : RouteState) (r : RunRequest) : CreateRunResponse × RouteState :=
  match mapGet st.cache (dedupKey r) with
  | some entry =>
    if r.now - entry.timestamp < DEDUP_WINDOW_MS then
      ({ id := entry.runId, status := "created" }, st)
    else
      handleCreateRunFresh st r (dedupKey r) r.now
  | none => handleCreateRunFresh st r (dedupKey r) r.now

/-- What `processRunAsync` leaves behind: the events published to the run's
stream (in order), the status and error written to the audit record at
finalization, the adapter's final text on success, and whether the dedup
entry was released. -/
structure RunOutcome where
  events : List Ev
  status : String
  errorField : Option String
  finalText : Option String
  dedupReleased : Bool
deriving DecidableEq

/-- The tail of `processRunAsync` after the adapter returns or throws:
on a normal return the audit record is updated with status `ok`; on a
rethrown failure it is updated with status `error` and a second `error`
event is emitted.  The dedup entry is released on both paths.  The first
component of `chatOut` is the adapter's events, prefixed here with the
`plan` event emitted before the adapter ran. -/
def finalizeRun (chatOut : List Ev × List Msg × Except String String) : RunOutcome :=
  match chatOut.2.2 with
  | .ok final =>
    { events := Ev.plan :: chatOut.1, status := "ok", errorField := none,
      finalText := some final, dedupReleased := true }
  | .error e =>
    { events := (Ev.plan :: chatOut.1) ++ [Ev.error e], status := "error",
      errorField := some e, finalText := none, dedupReleased := true }

/-- `processRunAsync` of `routes/runs.ts`: emit the `plan` event, run the
adapter's chat loop on the system instruction plus user prompt forwarding
its events, then finalize the audit record. -/
def processRunAsync (oracle : Nat → Except String (Option ModelResponse))
    (exec : ToolCallT → Except String String)
    (systemPrompt prompt : String) (maxSteps : Nat) : RunOutcome :=
  finalizeRun (chat oracle exec [Msg.system systemPrompt, Msg.user prompt] maxSteps)

/-- Is this event a `done`? -/
def isDoneEv : Ev → Bool
  | .done => true
  | _ => false

/-- Is this event an `error`? -/
def isErrorEv : Ev → Bool
  | .error _ => true
  | _ => false

/-! ## The event bus (`api/streams.ts`), per run

`clients` and `ids` are module-level maps keyed by run id; this embeds
the slice of both maps belonging to one run.  `emitRunEvent` drops the
event (assigning no sequence number) when no subscriber is attached,
otherwise assigns `(ids.get(runId) ?? 0) + 1` and stores it.  `onClose`
removes the subscriber and, when it was the last one, deletes the run's
entry from both maps — including its sequence counter.  (The delayed
sink-close scheduled 250ms after a terminal event touches neither map
entry used here.) -/

/-- The bus state for one run: attached subscriber ids and the run's
entry in `ids` (`none` when absent). -/
structure BusState where
  subs : List String
  counter : Option Nat
deriving DecidableEq

/-- `emitRunEvent`: returns the updated state and the assigned sequence
number, if any. -/
def emitRunEvent (st : BusState) : BusState × Option Nat :=
  if st.subs.isEmpty then (st, none)
  else
    let id := st.counter.getD 0 + 1
    ({ subs := st.subs, counter := some id }, some id)

/-- `streamRun`: a new subscriber attaches. -/
def attachSub (st : BusState) (c : String) : BusState :=
  { subs := st.subs ++ [c], counter := st.counter }

/-- `onClose`: the subscriber detaches; when it was the last one the
run's entries — subscriber set and sequence counter — are deleted. -/
def closeSub (st : BusState) (c : String) : BusState :=
  let subs1 := st.subs.erase c
  if subs1.isEmpty then { subs := [], counter := none }
  else { subs := subs1, counter := st.counter }

/-- One observable bus operation. -/
inductive BusOp where
  | attach (c : String)
  | close (c : String)
  | emit
deriving DecidableEq

/-- Apply one bus operation; `emit` may assign a sequence number. -/
def busStep (st : BusState) : BusOp → BusState × Option Nat
  | .attach c => (attachSub st c, none)
  | .close c => (closeSub st c, none)
  | .emit => emitRunEvent st

/-- Run a list of bus operations, collecting the assigned sequence
numbers in publish order. -/
def runBus (st : BusState) : List BusOp → BusState × List Nat
  | [] => (st, [])
  | op :: ops =>
    let (st1, s) := busStep st op
    let (st2, seqs) := runBus st1 ops
    (st2, s.toList ++ seqs)

/-! ## Lemmas about the fully-qualified name codec -/

theorem splitUU_ne_nil (l : List Char) : splitUU l ≠ [] := by
  induction l using splitUU.induct with
  | case1 => simp [splitUU]
  | case2 r ih => simp [splitUU]
  | case3 c r hne hnil ih => exact absurd hnil ih
  | case4 c r hne h t heq ih => simp [splitUU, heq]

theorem splitUU_cons (c : Char) (r : List Char)
    (h : ¬ (c = '_' ∧ ∃ r1, r = '_' :: r1)) :
    splitUU (c :: r) = (c :: (splitUU r).headI) :: (splitUU r).tail := by
  rw [splitUU.eq_def]
  split
  · rename_i heq; exact absurd heq (by simp)
  · rename_i r1 heq
    rw [List.cons.injEq] at heq
    exact absurd ⟨heq.1, r1, heq.2⟩ h
  · rename_i c1 r1 hne heq
    rw [List.cons.injEq] at heq
    obtain ⟨h1, h2⟩ := heq
    subst h1; subst h2
    cases hs : splitUU r with
    | nil => exact absurd hs (splitUU_ne_nil r)
    | cons a t => simp [hs]

theorem joinUU_splitUU (l : List Char) : joinUU (splitUU l) = l := by
  induction l using splitUU.induct with
  | case1 => simp [splitUU, joinUU]
  | case2 r ih =>
    cases heq : splitUU r with
    | nil => exact absurd heq (splitUU_ne_nil r)
    | cons h t =>
      rw [heq] at ih
      simp only [splitUU, heq, joinUU]
      simpa using ih
  | case3 c r hne hnil ih => exact absurd hnil (splitUU_ne_nil r)
  | case4 c r hne h t heq ih =>
    rw [heq] at ih
    simp only [splitUU, heq]
    cases t with
    | nil => simp only [joinUU] at ih ⊢; rw [ih]
    | cons t0 ts => simp only [joinUU] at ih ⊢; rw [List.cons_append, ih]

theorem goodSeg_cons_ne (c : Char) (l : List Char) (hc : c ≠ '_') :
    goodSeg (c :: l) = goodSeg l := by
  rw [goodSeg.eq_def]
  split
  · rename_i heq; simp at heq
  · rename_i heq
    rw [List.cons.injEq] at heq
    exact absurd heq.1 hc
  · rename_i t heq
    rw [List.cons.injEq] at heq
    exact absurd heq.1 hc
  · rename_i c1 r1 hne heq
    rw [List.cons.injEq] at heq
    exact absurd heq.1 hc
  · rename_i hd r1 g1 g2 g3 heq
    rw [List.cons.injEq] at heq
    rw [heq.2]

theorem goodSeg_underscore_cons (c : Char) (l : List Char) (hc : c ≠ '_') :
    goodSeg ('_' :: c :: l) = goodSeg (c :: l) := by
  rw [goodSeg.eq_def]
  split
  · rename_i heq; simp at heq
  · rename_i heq; simp at heq
  · rename_i t heq
    rw [List.cons.injEq, List.cons.injEq] at heq
    exact absurd heq.2.1 hc
  · rename_i c1 r1 hne heq
    rw [List.cons.injEq, List.cons.injEq] at heq
    rw [heq.2.1, heq.2.2]
  · rename_i hd r1 g1 g2 g3 heq
    rw [List.cons.injEq] at heq
    exact (g3 c l heq.1.symm heq.2.symm).elim

theorem splitUU_goodSeg_append (a b : List Char) (h : goodSeg a = true) :
    splitUU (a ++ '_' :: '_' :: b) = a :: splitUU b := by
  induction a with
  | nil => simp [splitUU]
  | cons c rest ih =>
    have hcase : ¬ (c = '_' ∧ ∃ r1, (rest ++ '_' :: '_' :: b) = '_' :: r1) := by
      rintro ⟨hc, r1, hr⟩
      subst hc
      cases rest with
      | nil => simp [goodSeg] at h
      | cons d r2 =>
        rw [List.cons_append, List.cons.injEq] at hr
        rw [hr.1] at h
        simp [goodSeg] at h
    have hrest : goodSeg rest = true := by
      cases rest with
      | nil => simp [goodSeg]
      | cons d r2 =>
        by_cases hc : c = '_'
        · subst hc
          by_cases hd : d = '_'
          · subst hd; simp [goodSeg] at h
          · rwa [goodSeg_underscore_cons d r2 hd] at h
        · rwa [goodSeg_cons_ne c (d :: r2) hc] at h
    rw [List.cons_append, splitUU_cons c _ hcase, ih hrest]
    simp

theorem goodServer_cons_ne (c : Char) (l : List Char) (hc : c ≠ '-') :
    goodServer (c :: l) = (c.isAlphanum && goodServer l) := by
  rw [goodServer.eq_def]
  split
  · rename_i heq; simp at heq
  · rename_i heq
    rw [List.cons.injEq] at heq
    exact absurd heq.1 hc
  · rename_i t heq
    rw [List.cons.injEq] at heq
    exact absurd heq.1 hc
  · rename_i c1 r1 hne heq
    rw [List.cons.injEq] at heq
    exact absurd heq.1 hc
  · rename_i hd r1 g1 g2 g3 heq
    rw [List.cons.injEq] at heq
    rw [heq.1, heq.2]

theorem goodServer_hyphen_cons (d : Char) (l : List Char) (hd : d ≠ '-') :
    goodServer ('-' :: d :: l) = goodServer (d :: l) := by
  rw [goodServer.eq_def]
  split
  · rename_i heq; simp at heq
  · rename_i heq; simp at heq
  · rename_i t heq
    rw [List.cons.injEq, List.cons.injEq] at heq
    exact absurd heq.2.1 hd
  · rename_i c1 r1 hne heq
    rw [List.cons.injEq, List.cons.injEq] at heq
    rw [heq.2.1, heq.2.2]
  · rename_i hd1 r1 g1 g2 g3 heq
    rw [List.cons.injEq] at heq
    exact (g3 d l heq.1.symm heq.2.symm).elim

theorem goodServer_tail (c : Char) (l : List Char) (h : goodServer (c :: l) = true) :
    goodServer l = true := by
  by_cases hc : c = '-'
  · subst hc
    cases l with
    | nil => simp [goodServer]
    | cons d r2 =>
      by_cases hd : d = '-'
      · subst hd; simp [goodServer] at h
      · rwa [goodServer_hyphen_cons d r2 hd] at h
  · rw [goodServer_cons_ne c l hc, Bool.and_eq_true] at h
    exact h.2

theorem goodServer_mem (s : List Char) (h : goodServer s = true) :
    ∀ c ∈ s, c.isAlphanum ∨ c = '-' := by
  induction s with
  | nil => intro c hc; simp at hc
  | cons c rest ih =>
    intro d hd
    rcases List.mem_cons.mp hd with hd1 | hd2
    · subst hd1
      by_cases hc : d = '-'
      · exact Or.inr hc
      · rw [goodServer_cons_ne d rest hc, Bool.and_eq_true] at h
        exact Or.inl h.1
    · exact ih (goodServer_tail c rest h) d hd2

theorem goodSeg_of_goodServer (s : List Char) (h : goodServer s = true) :
    goodSeg (s.map hyphenToUnderscore) = true := by
  induction s with
  | nil => simp [goodSeg]
  | cons c rest ih =>
    by_cases hc : c = '-'
    · subst hc
      cases rest with
      | nil => simp [goodServer] at h
      | cons d r2 =>
        by_cases hd : d = '-'
        · subst hd; simp [goodServer] at h
        · rw [goodServer_hyphen_cons d r2 hd] at h
          have hda : d.isAlphanum = true := by
            rcases goodServer_mem (d :: r2) h d (by simp) with ha | hb
            · exact ha
            · exact absurd hb hd
          have hdu : d ≠ '_' := by
            intro he; rw [he] at hda; exact absurd hda (by decide)
          have hmapd : hyphenToUnderscore d = d := by simp [hyphenToUnderscore, hd]
          have hmaph : hyphenToUnderscore '-' = '_' := by simp [hyphenToUnderscore]
          rw [List.map_cons, List.map_cons, hmaph, hmapd,
            goodSeg_underscore_cons d _ hdu]
          have hih := ih h
          rwa [List.map_cons, hmapd] at hih
    · rw [goodServer_cons_ne c rest hc, Bool.and_eq_true] at h
      have hcu : c ≠ '_' := by
        intro he; rw [he] at h; exact absurd h.1 (by decide)
      have hmapc : hyphenToUnderscore c = c := by simp [hyphenToUnderscore, hc]
      rw [List.map_cons, hmapc, goodSeg_cons_ne c _ hcu]
      exact ih h.2

theorem map_id_of_mem (f : Char → Char) (l : List Char) (h : ∀ c ∈ l, f c = c) :
    l.map f = l := by
  induction l with
  | nil => rfl
  | cons c rest ih =>
    rw [List.map_cons, h c (by simp), ih fun d hd => h d (by simp [hd])]

theorem underscoreToHyphen_hyphenToUnderscore (c : Char)
    (h : c.isAlphanum = true ∨ c = '-') :
    underscoreToHyphen (hyphenToUnderscore c) = c := by
  rcases h with ha | hb
  · have hc1 : c ≠ '-' := by intro he; rw [he] at ha; exact absurd ha (by decide)
    have hc2 : c ≠ '_' := by intro he; rw [he] at ha; exact absurd ha (by decide)
    simp [hyphenToUnderscore, underscoreToHyphen, hc1, hc2]
  · subst hb; decide

theorem sanitizeChar_id (c : Char) (h : c.isAlphanum = true ∨ c = '_') :
    sanitizeChar c = c := by
  unfold sanitizeChar
  rcases h with ha | hb
  · rw [if_pos (Or.inl ha)]
  · rw [if_pos (Or.inr hb)]

theorem toOpenAiFunctionName_eq (server tool : List Char)
    (hs : goodServer server = true) (ht : goodTool tool = true)
    (hlen : server.length + tool.length + 7 ≤ 64) :
    toOpenAiFunctionName server tool =
      "mcp__".data ++ server.map hyphenToUnderscore ++ "__".data ++ tool := by
  unfold toOpenAiFunctionName
  have hmap : ("mcp__".data ++ server.map hyphenToUnderscore ++ "__".data ++ tool).map
      sanitizeChar = "mcp__".data ++ server.map hyphenToUnderscore ++ "__".data ++ tool := by
    apply map_id_of_mem
    intro c hc
    apply sanitizeChar_id
    simp only [List.mem_append] at hc
    rcases hc with ((h1 | h2) | h3) | h4
    · have hall : ∀ x ∈ "mcp__".data, x.isAlphanum = true ∨ x = '_' := by decide
      exact hall c h1
    · rcases List.mem_map.mp h2 with ⟨d, hd, hdc⟩
      rcases goodServer_mem server hs d hd with ha | hb
      · left
        have hmd : hyphenToUnderscore d = d := by
          simp only [hyphenToUnderscore, ite_eq_right_iff]
          intro he; rw [he] at ha; exact absurd ha (by decide)
        rw [← hdc, hmd]; exact ha
      · right; rw [← hdc, hb]; rfl
    · have hall : ∀ x ∈ "__".data, x.isAlphanum = true ∨ x = '_' := by decide
      exact hall c h3
    · rcases List.all_eq_true.mp ht c h4 with hh
      rcases Bool.or_eq_true_iff.mp hh with ha | hb
      · exact Or.inl ha
      · exact Or.inr (of_decide_eq_true hb)
  have hlen2 : ("mcp__".data ++ server.map hyphenToUnderscore ++ "__".data ++ tool).length
      ≤ 64 := by
    simp only [List.length_append, List.length_map, List.length_cons, List.length_nil]
    omega
  rw [hmap, List.take_of_length_le hlen2]

theorem splitUU_encode (server tool : List Char) (hs : goodServer server = true) :
    splitUU ("mcp__".data ++ server.map hyphenToUnderscore ++ "__".data ++ tool) =
      "mcp".data :: server.map hyphenToUnderscore :: splitUU tool := by
  have hshape : "mcp__".data ++ server.map hyphenToUnderscore ++ "__".data ++ tool =
      "mcp".data ++ '_' :: '_' :: (server.map hyphenToUnderscore ++ '_' :: '_' :: tool) := by
    simp
  rw [hshape, splitUU_goodSeg_append _ _ (by decide),
    splitUU_goodSeg_append _ _ (goodSeg_of_goodServer server hs)]

/-- **C1, amended.**  The claimed round trip fails in general (see the
counterexample), but holds on the names the encoding does not mangle:
for every server name made of ASCII alphanumerics and hyphens with no two
adjacent hyphens and no trailing hyphen, and every tool name made of ASCII
alphanumerics and underscores, whose encoded form (7 characters of
framing plus both names) is within the 64-character cap,
`fromOpenAiFunctionName (toOpenAiFunctionName server tool)` returns
exactly `(server, tool)`. -/
theorem c1_name_codec_roundtrip (server tool : List Char)
    (hs : goodServer server = true) (ht : goodTool tool = true)
    (hlen : server.length + tool.length + 7 ≤ 64) :
    fromOpenAiFunctionName (toOpenAiFunctionName server tool) =
      .ok (server, tool) := by
  rw [toOpenAiFunctionName_eq server tool hs ht hlen]
  unfold fromOpenAiFunctionName
  have hpre : "mcp__".data.isPrefixOf
      ("mcp__".data ++ server.map hyphenToUnderscore ++ "__".data ++ tool) = true := by
    rw [List.isPrefixOf_iff_prefix]
    exact List.prefix_append _ _
  rw [if_pos hpre, splitUU_encode server tool hs]
  have hlen3 : ¬ ("mcp".data :: server.map hyphenToUnderscore :: splitUU tool).length < 3 := by
    have h2 := List.length_pos.mpr (splitUU_ne_nil tool)
    simp only [List.length_cons]
    omega
  rw [if_neg hlen3]
  have hgetD : ("mcp".data :: server.map hyphenToUnderscore :: splitUU tool).getD 1 [] =
      server.map hyphenToUnderscore := rfl
  have hdrop : ("mcp".data :: server.map hyphenToUnderscore :: splitUU tool).drop 2 =
      splitUU tool := rfl
  rw [hgetD, hdrop, joinUU_splitUU]
  have hback : (server.map hyphenToUnderscore).map underscoreToHyphen = server := by
    rw [List.map_map]
    exact map_id_of_mem _ server fun c hc =>
      underscoreToHyphen_hyphenToUnderscore c (goodServer_mem server hs c hc)
  rw [hback]

/-- **C1, counterexample.**  `("a", "b-c")` is well inside the length cap,
yet the round trip returns `("a", "b_c")`: the encode pass rewrites the
hyphen of the tool name to an underscore and the decode pass cannot undo
it.  The claim as stated (round trip for *every* pair within the cap) is
false. -/
theorem c1_roundtrip_counterexample :
    (toOpenAiFunctionName "a".data "b-c".data).length ≤ 64 ∧
    fromOpenAiFunctionName (toOpenAiFunctionName "a".data "b-c".data) =
      .ok ("a".data, "b_c".data) ∧
    fromOpenAiFunctionName (toOpenAiFunctionName "a".data "b-c".data) ≠
      .ok ("a".data, "b-c".data) := by
  refine ⟨by decide, by decide, by decide⟩

/-- Witness for `c1_name_codec_roundtrip` at
`(server, tool) = ("google-workspace", "send_email")`. -/
theorem c1_name_codec_roundtrip_witness :
    goodServer "google-workspace".data = true ∧
    goodTool "send_email".data = true ∧
    ("google-workspace".data.length + "send_email".data.length + 7 ≤ 64) ∧
    fromOpenAiFunctionName
      (toOpenAiFunctionName "google-workspace".data "send_email".data) =
      .ok ("google-workspace".data, "send_email".data) :=
  ⟨by decide, by decide, by decide,
    c1_name_codec_roundtrip "google-workspace".data "send_email".data
      (by decide) (by decide) (by decide)⟩

/-! ## Lemmas about `callByOpenAiName` -/

theorem string_mk_data (s : String) : String.mk s.data = s := rfl

/-- **C9 (as claimed).**  For every function name that does not start with
the broker's `mcp__` namespace, or splits into fewer than three
`__`-separated segments, `callByOpenAiName` fails with the corresponding
descriptive decode error before anything else happens: no reconnect pass
runs and no provider call is dispatched. -/
theorem c9_malformed_name_fails_fast {J : Type} (env : BrokerEnv J) (fn argsJson : String)
    (h : "mcp__".data.isPrefixOf fn.data = false ∨ (splitUU fn.data).length < 3) :
    callByOpenAiName env fn argsJson =
      (.error (if "mcp__".data.isPrefixOf fn.data then
                 "Malformed MCP function name: " ++ fn
               else "Not an MCP function: " ++ fn),
       ⟨false, []⟩) := by
  have hdec : fromOpenAiFunctionName fn.data =
      .error (if "mcp__".data.isPrefixOf fn.data then
                "Malformed MCP function name: " ++ fn
              else "Not an MCP function: " ++ fn) := by
    unfold fromOpenAiFunctionName
    by_cases hp : "mcp__".data.isPrefixOf fn.data = true
    · have hlt : (splitUU fn.data).length < 3 := by
        rcases h with h1 | h2
        · rw [hp] at h1; exact absurd h1 (by decide)
        · exact h2
      rw [if_pos hp, if_pos hlt, if_pos hp, string_mk_data]
    · rw [if_neg hp, if_neg hp, string_mk_data]
  unfold callByOpenAiName
  rw [hdec]

/-- Witness for `c9_malformed_name_fails_fast` at the unprefixed name
`"weather"` (and, an instance of the other disjunct, at `"mcp__x"`). -/
theorem c9_malformed_name_fails_fast_witness :
    ("mcp__".data.isPrefixOf "weather".data = false ∨
      (splitUU "weather".data).length < 3) ∧
    callByOpenAiName
      (⟨["s"], [], fun _ => none, 0, id, fun _ _ _ => ⟨none, none⟩⟩ : BrokerEnv Nat)
      "weather" "" =
      (.error (if "mcp__".data.isPrefixOf "weather".data then
                 "Malformed MCP function name: " ++ "weather"
               else "Not an MCP function: " ++ "weather"),
       ⟨false, []⟩) :=
  ⟨Or.inl (by decide),
    c9_malformed_name_fails_fast
      (⟨["s"], [], fun _ => none, 0, id, fun _ _ _ => ⟨none, none⟩⟩ : BrokerEnv Nat)
      "weather" "" (Or.inl (by decide))⟩

/-- **C10 (as claimed).**  With a decodable name and a connected provider:
an empty (or missing) arguments string is treated as the empty JSON object
and the call proceeds to the provider; the `Invalid JSON in "args"` error
is raised exactly when a non-empty arguments string fails to parse, and
then no provider call is dispatched. -/
theorem c10_args_handling {J : Type} (env : BrokerEnv J) (fn argsJson : String)
    (serverL toolL : List Char)
    (hdec : fromOpenAiFunctionName fn.data = .ok (serverL, toolL))
    (hconn : String.mk serverL ∈ env.clients) :
    (argsJson = "" →
      callByOpenAiName env fn argsJson =
        (.ok ⟨(env.callTool (String.mk serverL) (String.mk toolL)
                 (gmailAdjust env (String.mk serverL) toolL env.emptyObj)).content,
              (env.callTool (String.mk serverL) (String.mk toolL)
                 (gmailAdjust env (String.mk serverL) toolL env.emptyObj)).isError.getD
                false⟩,
         ⟨false, [(String.mk serverL, String.mk toolL,
                   gmailAdjust env (String.mk serverL) toolL env.emptyObj)]⟩)) ∧
    (argsJson ≠ "" → env.parseJson argsJson = none →
      callByOpenAiName env fn argsJson =
        (.error "Invalid JSON in \"args\"", ⟨false, []⟩)) := by
  constructor
  · intro he
    subst he
    unfold callByOpenAiName
    rw [hdec]
    show (if String.mk serverL ∈ env.clients then
            callDispatch env (String.mk serverL) (String.mk toolL) toolL "" false
          else _) = _
    rw [if_pos hconn]
    unfold callDispatch
    rw [if_pos rfl]
  · intro hne hparse
    unfold callByOpenAiName
    rw [hdec]
    show (if String.mk serverL ∈ env.clients then
            callDispatch env (String.mk serverL) (String.mk toolL) toolL argsJson false
          else _) = _
    rw [if_pos hconn]
    unfold callDispatch
    rw [if_neg hne, hparse]

/-- Witness for `c10_args_handling` at `fn = "mcp__s__t"` against an
environment whose JSON parser rejects everything. -/
theorem c10_args_handling_witness :
    fromOpenAiFunctionName "mcp__s__t".data = .ok ("s".data, "t".data) ∧
    String.mk "s".data ∈
      (⟨["s"], [], fun _ => none, 0, id, fun _ _ _ => ⟨none, none⟩⟩ : BrokerEnv Nat).clients ∧
    callByOpenAiName
      (⟨["s"], [], fun _ => none, 0, id, fun _ _ _ => ⟨none, none⟩⟩ : BrokerEnv Nat)
      "mcp__s__t" "" =
      (.ok ⟨none, false⟩, ⟨false, [("s", "t", 0)]⟩) ∧
    callByOpenAiName
      (⟨["s"], [], fun _ => none, 0, id, fun _ _ _ => ⟨none, none⟩⟩ : BrokerEnv Nat)
      "mcp__s__t" "oops" =
      (.error "Invalid JSON in \"args\"", ⟨false, []⟩) :=
  ⟨by decide, by decide,
    (c10_args_handling _ "mcp__s__t" "" "s".data "t".data (by decide) (by decide)).1 rfl,
    (c10_args_handling _ "mcp__s__t" "oops" "s".data "t".data (by decide) (by decide)).2
      (by decide) rfl⟩

/-! ## Lemmas about the tool-calling loop -/

theorem chatLoop_zero (oracle : Nat → Except String (Option ModelResponse))
    (exec : ToolCallT → Except String String) (step : Nat) (msgs : List Msg) :
    chatLoop oracle exec step 0 msgs =
      ([Ev.error "Maximum steps exceeded"], msgs, .ok "Maximum steps exceeded") := rfl

theorem chatLoop_succ (oracle : Nat → Except String (Option ModelResponse))
    (exec : ToolCallT → Except String String) (step fuel : Nat) (msgs : List Msg) :
    chatLoop oracle exec step (fuel + 1) msgs =
      match oracle step with
      | .error e => ([Ev.error e], msgs, .error e)
      | .ok none => chatLoop oracle exec (step + 1) fuel msgs
      | .ok (some resp) =>
        match resp.toolCalls with
        | [] =>
          (tokenEvents resp.content ++ [Ev.message resp.content, Ev.done], msgs,
            .ok resp.content)
        | tc :: tcs =>
          ((tc :: tcs).map (fun c => Ev.toolCallEvt c.id c.name c.arguments) ++
            (chatLoop oracle exec (step + 1) fuel
              (msgs ++ Msg.assistant resp.content (tc :: tcs) ::
                (tc :: tcs).map (execResultMsg exec))).1,
           (chatLoop oracle exec (step + 1) fuel
              (msgs ++ Msg.assistant resp.content (tc :: tcs) ::
                (tc :: tcs).map (execResultMsg exec))).2) := rfl

theorem chatLoop_oracle_throw (oracle : Nat → Except String (Option ModelResponse))
    (exec : ToolCallT → Except String String) (step fuel : Nat) (msgs : List Msg)
    (e : String) (ho : oracle step = .error e) :
    chatLoop oracle exec step (fuel + 1) msgs = ([Ev.error e], msgs, .error e) := by
  rw [chatLoop_succ, ho]

theorem chatLoop_no_choice (oracle : Nat → Except String (Option ModelResponse))
    (exec : ToolCallT → Except String String) (step fuel : Nat) (msgs : List Msg)
    (ho : oracle step = .ok none) :
    chatLoop oracle exec step (fuel + 1) msgs = chatLoop oracle exec (step + 1) fuel msgs := by
  rw [chatLoop_succ, ho]

theorem chatLoop_final (oracle : Nat → Except String (Option ModelResponse))
    (exec : ToolCallT → Except String String) (step fuel : Nat) (msgs : List Msg)
    (resp : ModelResponse) (ho : oracle step = .ok (some resp))
    (htc : resp.toolCalls = []) :
    chatLoop oracle exec step (fuel + 1) msgs =
      (tokenEvents resp.content ++ [Ev.message resp.content, Ev.done], msgs,
        .ok resp.content) := by
  obtain ⟨content, calls⟩ := resp
  have htc2 : calls = [] := htc
  subst htc2
  rw [chatLoop_succ, ho]

theorem chatLoop_toolcalls_step (oracle : Nat → Except String (Option ModelResponse))
    (exec : ToolCallT → Except String String) (step fuel : Nat) (msgs : List Msg)
    (resp : ModelResponse) (tc : ToolCallT) (tcs : List ToolCallT)
    (ho : oracle step = .ok (some resp)) (htc : resp.toolCalls = tc :: tcs) :
    chatLoop oracle exec step (fuel + 1) msgs =
      ((tc :: tcs).map (fun c => Ev.toolCallEvt c.id c.name c.arguments) ++
        (chatLoop oracle exec (step + 1) fuel
          (msgs ++ Msg.assistant resp.content (tc :: tcs) ::
            (tc :: tcs).map (execResultMsg exec))).1,
       (chatLoop oracle exec (step + 1) fuel
          (msgs ++ Msg.assistant resp.content (tc :: tcs) ::
            (tc :: tcs).map (execResultMsg exec))).2) := by
  obtain ⟨content, calls⟩ := resp
  have htc2 : calls = tc :: tcs := htc
  subst htc2
  rw [chatLoop_succ, ho]

theorem countP_tokenEvents (p : Ev → Bool) (content : String)
    (h : ∀ s, p (Ev.token s) = false) : (tokenEvents content).countP p = 0 := by
  unfold tokenEvents
  split
  · rfl
  · rw [List.countP_eq_zero]
    intro e he
    rcases List.mem_map.mp he with ⟨w, hw, rfl⟩
    simp [h]

theorem countP_toolCallEvts (p : Ev → Bool) (calls : List ToolCallT)
    (h : ∀ i n a, p (Ev.toolCallEvt i n a) = false) :
    (calls.map fun c => Ev.toolCallEvt c.id c.name c.arguments).countP p = 0 := by
  rw [List.countP_eq_zero]
  intro e he
  rcases List.mem_map.mp he with ⟨c, hc, rfl⟩
  simp [h]

/-- The terminal-event bookkeeping of one whole `chat` run: a normal
return carries either exactly one `done` (final response) or exactly one
`error` (step budget) among its published events; a rethrown model
failure carries exactly one `error` and no `done`. -/
theorem chatLoop_result_counts (oracle : Nat → Except String (Option ModelResponse))
    (exec : ToolCallT → Except String String) :
    ∀ fuel step msgs,
      ((∃ f, (chatLoop oracle exec step fuel msgs).2.2 = Except.ok f) ∧
        (((chatLoop oracle exec step fuel msgs).1.countP isDoneEv = 1 ∧
          (chatLoop oracle exec step fuel msgs).1.countP isErrorEv = 0) ∨
         ((chatLoop oracle exec step fuel msgs).1.countP isDoneEv = 0 ∧
          (chatLoop oracle exec step fuel msgs).1.countP isErrorEv = 1))) ∨
      ((∃ e, (chatLoop oracle exec step fuel msgs).2.2 = Except.error e) ∧
        (chatLoop oracle exec step fuel msgs).1.countP isDoneEv = 0 ∧
        (chatLoop oracle exec step fuel msgs).1.countP isErrorEv = 1) := by
  intro fuel
  induction fuel with
  | zero =>
    intro step msgs
    rw [chatLoop_zero]
    exact Or.inl ⟨⟨_, rfl⟩, Or.inr ⟨by simp [List.countP_cons, isDoneEv],
      by simp [List.countP_cons, isErrorEv]⟩⟩
  | succ fuel ih =>
    intro step msgs
    cases ho : oracle step with
    | error e =>
      rw [chatLoop_oracle_throw oracle exec step fuel msgs e ho]
      exact Or.inr ⟨⟨e, rfl⟩, by simp [List.countP_cons, isDoneEv],
        by simp [List.countP_cons, isErrorEv]⟩
    | ok oresp =>
      cases oresp with
      | none =>
        rw [chatLoop_no_choice oracle exec step fuel msgs ho]
        exact ih (step + 1) msgs
      | some resp =>
        cases htc : resp.toolCalls with
        | nil =>
          rw [chatLoop_final oracle exec step fuel msgs resp ho htc]
          refine Or.inl ⟨⟨_, rfl⟩, Or.inl ⟨?_, ?_⟩⟩
          · rw [List.countP_append,
              countP_tokenEvents isDoneEv resp.content (fun s => rfl)]
            simp [List.countP_cons, isDoneEv]
          · rw [List.countP_append,
              countP_tokenEvents isErrorEv resp.content (fun s => rfl)]
            simp [List.countP_cons, isErrorEv]
        | cons tc tcs =>
          rw [chatLoop_toolcalls_step oracle exec step fuel msgs resp tc tcs ho htc]
          have hd := countP_toolCallEvts isDoneEv (tc :: tcs) (fun i n a => rfl)
          have he := countP_toolCallEvts isErrorEv (tc :: tcs) (fun i n a => rfl)
          rcases ih (step + 1)
              (msgs ++ Msg.assistant resp.content (tc :: tcs) ::
                (tc :: tcs).map (execResultMsg exec)) with
            ⟨hr, hcounts⟩ | ⟨hr, hc1, hc2⟩
          · exact Or.inl ⟨hr, by
              rcases hcounts with ⟨h1, h2⟩ | ⟨h1, h2⟩
              · exact Or.inl ⟨by rw [List.countP_append, hd, h1],
                  by rw [List.countP_append, he, h2]⟩
              · exact Or.inr ⟨by rw [List.countP_append, hd, h1],
                  by rw [List.countP_append, he, h2]⟩⟩
          · exact Or.inr ⟨hr, by rw [List.countP_append, hd, hc1],
              by rw [List.countP_append, he, hc2]⟩

theorem processRunAsync_of_ok (oracle : Nat → Except String (Option ModelResponse))
    (exec : ToolCallT → Except String String) (sys prompt : String) (maxSteps : Nat)
    (f : String)
    (h : (chatLoop oracle exec 0 maxSteps [Msg.system sys, Msg.user prompt]).2.2 =
      .ok f) :
    processRunAsync oracle exec sys prompt maxSteps =
      ⟨Ev.plan :: (chatLoop oracle exec 0 maxSteps [Msg.system sys, Msg.user prompt]).1,
       "ok", none, some f, true⟩ := by
  unfold processRunAsync finalizeRun chat
  rw [h]

theorem processRunAsync_of_error (oracle : Nat → Except String (Option ModelResponse))
    (exec : ToolCallT → Except String String) (sys prompt : String) (maxSteps : Nat)
    (e : String)
    (h : (chatLoop oracle exec 0 maxSteps [Msg.system sys, Msg.user prompt]).2.2 =
      .error e) :
    processRunAsync oracle exec sys prompt maxSteps =
      ⟨(Ev.plan ::
          (chatLoop oracle exec 0 maxSteps [Msg.system sys, Msg.user prompt]).1) ++
         [Ev.error e],
       "error", some e, none, true⟩ := by
  unfold processRunAsync finalizeRun chat
  rw [h]

/-- **C2 (evaluated at the failing input).**  With a model that returns a
tool call on every round and `maxSteps = 2`, the loop stops after two
rounds and publishes exactly one `error` event (`Maximum steps exceeded`)
and no `done` — but `chat` returns normally instead of throwing, so
`processRunAsync` records the run's status as `ok`, not `error`. -/
theorem c2_step_budget_records_ok :
    processRunAsync (fun _ => .ok (some ⟨"", [⟨"call1", "mcp__s__t", "\x7b\x7d"⟩]⟩))
        (fun _ => .ok "null") "sys" "hi" 2 =
      ⟨[Ev.plan, Ev.toolCallEvt "call1" "mcp__s__t" "\x7b\x7d",
        Ev.toolCallEvt "call1" "mcp__s__t" "\x7b\x7d",
        Ev.error "Maximum steps exceeded"],
       "ok", none, some "Maximum steps exceeded", true⟩ ∧
    (processRunAsync (fun _ => .ok (some ⟨"", [⟨"call1", "mcp__s__t", "\x7b\x7d"⟩]⟩))
        (fun _ => .ok "null") "sys" "hi" 2).events.countP isErrorEv = 1 ∧
    (processRunAsync (fun _ => .ok (some ⟨"", [⟨"call1", "mcp__s__t", "\x7b\x7d"⟩]⟩))
        (fun _ => .ok "null") "sys" "hi" 2).events.countP isDoneEv = 0 := by
  refine ⟨by decide, by decide, by decide⟩

/-- **C3, counterexample.**  When the model request throws (here on the
first round), the adapter's catch publishes an `error` event and rethrows,
and `processRunAsync`'s catch publishes a second `error` event: the run
reaches a terminal state with two terminal events, so "exactly one
terminal event" is false. -/
theorem c3_two_error_events_counterexample :
    (processRunAsync (fun _ => .error "boom") (fun _ => .ok "") "sys" "hi" 5).events =
      [Ev.plan, Ev.error "boom", Ev.error "boom"] ∧
    ¬ (processRunAsync (fun _ => .error "boom") (fun _ => .ok "") "sys" "hi" 5).events.countP
        isErrorEv ≤ 1 := by
  refine ⟨by decide, by decide⟩

/-- **C3 (amended).**  Every run reaches a terminal state and publishes at
least one terminal event; a `done` is published at most once and never
together with an `error`; an `error` is published at most twice — twice
exactly on the model-gateway failure path, where the adapter's catch and
the route's catch each publish one. -/
theorem c3_terminal_event_bounds (oracle : Nat → Except String (Option ModelResponse))
    (exec : ToolCallT → Except String String) (sys prompt : String) (maxSteps : Nat) :
    (processRunAsync oracle exec sys prompt maxSteps).events.countP isDoneEv ≤ 1 ∧
    (1 ≤ (processRunAsync oracle exec sys prompt maxSteps).events.countP isDoneEv →
      (processRunAsync oracle exec sys prompt maxSteps).events.countP isErrorEv = 0) ∧
    1 ≤ (processRunAsync oracle exec sys prompt maxSteps).events.countP isDoneEv +
        (processRunAsync oracle exec sys prompt maxSteps).events.countP isErrorEv ∧
    (processRunAsync oracle exec sys prompt maxSteps).events.countP isErrorEv ≤ 2 := by
  rcases chatLoop_result_counts oracle exec maxSteps 0 [Msg.system sys, Msg.user prompt]
    with ⟨⟨f, hf⟩, hc⟩ | ⟨⟨e, he⟩, h1, h2⟩
  · rw [processRunAsync_of_ok oracle exec sys prompt maxSteps f hf]
    rcases hc with ⟨hd, her⟩ | ⟨hd, her⟩ <;>
      simp [List.countP_cons, isDoneEv, isErrorEv, hd, her]
  · rw [processRunAsync_of_error oracle exec sys prompt maxSteps e he]
    simp [List.countP_append, List.countP_cons, isDoneEv, isErrorEv, h1, h2]

/-- Witness for `c3_terminal_event_bounds` on a run whose model answers
directly on the first round. -/
theorem c3_terminal_event_bounds_witness :
    (processRunAsync (fun _ => .ok (some ⟨"fine", []⟩)) (fun _ => .ok "") "s" "p"
        3).events.countP isDoneEv ≤ 1 ∧
    (1 ≤ (processRunAsync (fun _ => .ok (some ⟨"fine", []⟩)) (fun _ => .ok "") "s" "p"
        3).events.countP isDoneEv →
      (processRunAsync (fun _ => .ok (some ⟨"fine", []⟩)) (fun _ => .ok "") "s" "p"
        3).events.countP isErrorEv = 0) ∧
    1 ≤ (processRunAsync (fun _ => .ok (some ⟨"fine", []⟩)) (fun _ => .ok "") "s" "p"
        3).events.countP isDoneEv +
        (processRunAsync (fun _ => .ok (some ⟨"fine", []⟩)) (fun _ => .ok "") "s" "p"
          3).events.countP isErrorEv ∧
    (processRunAsync (fun _ => .ok (some ⟨"fine", []⟩)) (fun _ => .ok "") "s" "p"
        3).events.countP isErrorEv ≤ 2 :=
  c3_terminal_event_bounds (fun _ => .ok (some ⟨"fine", []⟩)) (fun _ => .ok "") "s" "p" 3

/-- **C7 (confirmed).**  A round whose first tool call's execution throws
does not terminate the run: the round publishes only `tool_call` events,
the failure becomes an error-content tool-result message appended to the
message list handed to the continuation, and the loop proceeds to the
next model request (the continuation at `step + 1`). -/
theorem c7_tool_failure_nonfatal (oracle : Nat → Except String (Option ModelResponse))
    (exec : ToolCallT → Except String String) (step fuel : Nat) (msgs : List Msg)
    (resp : ModelResponse) (tc : ToolCallT) (tcs : List ToolCallT) (e : String)
    (ho : oracle step = .ok (some resp)) (htc : resp.toolCalls = tc :: tcs)
    (he : exec tc = .error e) :
    chatLoop oracle exec step (fuel + 1) msgs =
      ((tc :: tcs).map (fun c => Ev.toolCallEvt c.id c.name c.arguments) ++
        (chatLoop oracle exec (step + 1) fuel
          (msgs ++ Msg.assistant resp.content (tc :: tcs) ::
            (tc :: tcs).map (execResultMsg exec))).1,
       (chatLoop oracle exec (step + 1) fuel
          (msgs ++ Msg.assistant resp.content (tc :: tcs) ::
            (tc :: tcs).map (execResultMsg exec))).2) ∧
    execResultMsg exec tc = Msg.tool (errorContent e) tc.id ∧
    Msg.tool (errorContent e) tc.id ∈
      msgs ++ Msg.assistant resp.content (tc :: tcs) ::
        (tc :: tcs).map (execResultMsg exec) := by
  have hmsg : execResultMsg exec tc = Msg.tool (errorContent e) tc.id := by
    unfold execResultMsg
    rw [he]
  refine ⟨chatLoop_toolcalls_step oracle exec step fuel msgs resp tc tcs ho htc, hmsg, ?_⟩
  rw [List.mem_append]
  right
  rw [List.mem_cons]
  right
  exact List.mem_map.mpr ⟨tc, by simp, hmsg⟩

/-- Witness for `c7_tool_failure_nonfatal` on a one-call round whose
executor throws a routing error. -/
theorem c7_tool_failure_nonfatal_witness :
    chatLoop (fun _ => .ok (some ⟨"", [⟨"id1", "mcp__x__y", ""⟩]⟩))
        (fun _ => .error "Not an MCP function: y") 0 (0 + 1) [] =
      (([⟨"id1", "mcp__x__y", ""⟩] : List ToolCallT).map
          (fun c => Ev.toolCallEvt c.id c.name c.arguments) ++
        (chatLoop (fun _ => .ok (some ⟨"", [⟨"id1", "mcp__x__y", ""⟩]⟩))
          (fun _ => .error "Not an MCP function: y") (0 + 1) 0
          ([] ++ Msg.assistant "" [⟨"id1", "mcp__x__y", ""⟩] ::
            ([⟨"id1", "mcp__x__y", ""⟩] : List ToolCallT).map
              (execResultMsg fun _ => .error "Not an MCP function: y"))).1,
       (chatLoop (fun _ => .ok (some ⟨"", [⟨"id1", "mcp__x__y", ""⟩]⟩))
          (fun _ => .error "Not an MCP function: y") (0 + 1) 0
          ([] ++ Msg.assistant "" [⟨"id1", "mcp__x__y", ""⟩] ::
            ([⟨"id1", "mcp__x__y", ""⟩] : List ToolCallT).map
              (execResultMsg fun _ => .error "Not an MCP function: y"))).2) ∧
    execResultMsg (fun _ => .error "Not an MCP function: y") ⟨"id1", "mcp__x__y", ""⟩ =
      Msg.tool (errorContent "Not an MCP function: y") "id1" ∧
    Msg.tool (errorContent "Not an MCP function: y") "id1" ∈
      ([] : List Msg) ++ Msg.assistant "" [⟨"id1", "mcp__x__y", ""⟩] ::
        ([⟨"id1", "mcp__x__y", ""⟩] : List ToolCallT).map
          (execResultMsg fun _ => .error "Not an MCP function: y") :=
  c7_tool_failure_nonfatal (fun _ => .ok (some ⟨"", [⟨"id1", "mcp__x__y", ""⟩]⟩))
    (fun _ => .error "Not an MCP function: y") 0 0 [] ⟨"", [⟨"id1", "mcp__x__y", ""⟩]⟩
    ⟨"id1", "mcp__x__y", ""⟩ [] "Not an MCP function: y" rfl rfl rfl

/-- **C8 (confirmed).**  A round whose model response carries zero tool
calls is final: the loop publishes the streamed tokens, then a `message`
event with the content, then a `done` event, and returns the content; and
every run that published a `done` is recorded with status `ok`. -/
theorem c8_zero_toolcalls_final (oracle : Nat → Except String (Option ModelResponse))
    (exec : ToolCallT → Except String String) (sys prompt : String) (maxSteps : Nat) :
    (∀ step fuel msgs resp, oracle step = .ok (some resp) → resp.toolCalls = [] →
      chatLoop oracle exec step (fuel + 1) msgs =
        (tokenEvents resp.content ++ [Ev.message resp.content, Ev.done], msgs,
          .ok resp.content)) ∧
    (Ev.done ∈ (processRunAsync oracle exec sys prompt maxSteps).events →
      (processRunAsync oracle exec sys prompt maxSteps).status = "ok") := by
  constructor
  · intro step fuel msgs resp ho htc
    exact chatLoop_final oracle exec step fuel msgs resp ho htc
  · intro hdone
    rcases chatLoop_result_counts oracle exec maxSteps 0 [Msg.system sys, Msg.user prompt]
      with ⟨⟨f, hf⟩, hc⟩ | ⟨⟨e, he⟩, h1, h2⟩
    · rw [processRunAsync_of_ok oracle exec sys prompt maxSteps f hf]
    · exfalso
      rw [processRunAsync_of_error oracle exec sys prompt maxSteps e he] at hdone
      simp only [List.mem_append, List.mem_cons] at hdone
      rcases hdone with (h3 | h3) | h3
      · exact Ev.noConfusion h3
      · exact absurd rfl (List.countP_eq_zero.mp h1 Ev.done h3)
      · simp at h3

/-- Witness for `c8_zero_toolcalls_final` on a model that answers
`"hello"` without tool calls. -/
theorem c8_zero_toolcalls_final_witness :
    chatLoop (fun _ => .ok (some ⟨"hello", []⟩)) (fun _ => .ok "") 0 (0 + 1) [] =
      (tokenEvents "hello" ++ [Ev.message "hello", Ev.done], [], .ok "hello") ∧
    Ev.done ∈ (processRunAsync (fun _ => .ok (some ⟨"hello", []⟩)) (fun _ => .ok "")
      "s" "p" 3).events ∧
    (processRunAsync (fun _ => .ok (some ⟨"hello", []⟩)) (fun _ => .ok "")
      "s" "p" 3).status = "ok" :=
  ⟨(c8_zero_toolcalls_final (fun _ => .ok (some ⟨"hello", []⟩)) (fun _ => .ok "")
      "s" "p" 3).1 0 0 [] ⟨"hello", []⟩ rfl rfl,
   by decide,
   (c8_zero_toolcalls_final (fun _ => .ok (some ⟨"hello", []⟩)) (fun _ => .ok "")
      "s" "p" 3).2 (by decide)⟩

/-! ## Lemmas about the dedup cache -/

theorem mapGet_cons (k1 : String) (v1 : CacheEntry) (rest : List (String × CacheEntry))
    (k : String) :
    mapGet ((k1, v1) :: rest) k = if k1 = k then some v1 else mapGet rest k := by
  by_cases hk : k1 = k <;> simp [mapGet, List.find?_cons, hk]

theorem mapGet_mapSet_self (m : List (String × CacheEntry)) (k : String) (v : CacheEntry) :
    mapGet (mapSet m k v) k = some v := by
  induction m with
  | nil => simp [mapSet, mapGet, List.find?_cons]
  | cons e rest ih =>
    obtain ⟨k1, v1⟩ := e
    unfold mapSet
    by_cases hk : k1 = k
    · rw [if_pos hk, mapGet_cons, if_pos rfl]
    · rw [if_neg hk, mapGet_cons, if_neg hk]
      exact ih

theorem mapGet_filter (m : List (String × CacheEntry)) (k : String) (v : CacheEntry)
    (p : String × CacheEntry → Bool) (h : mapGet m k = some v) (hp : p (k, v) = true) :
    mapGet (m.filter p) k = some v := by
  induction m with
  | nil => simp [mapGet] at h
  | cons e rest ih =>
    obtain ⟨k1, v1⟩ := e
    rw [mapGet_cons] at h
    by_cases hk : k1 = k
    · rw [if_pos hk] at h
      obtain rfl : v1 = v := by injection h
      subst hk
      rw [List.filter_cons_of_pos hp, mapGet_cons, if_pos rfl]
    · rw [if_neg hk] at h
      rw [List.filter_cons]
      by_cases hpe : p (k1, v1) = true
      · rw [if_pos hpe, mapGet_cons, if_neg hk]
        exact ih h
      · rw [if_neg hpe]
        exact ih h

theorem handleCreateRun_fresh_eq (st : RouteState) (r : RunRequest)
    (h : ∀ e, mapGet st.cache (dedupKey r) = some e →
      DEDUP_WINDOW_MS ≤ r.now - e.timestamp) :
    handleCreateRun st r = handleCreateRunFresh st r (dedupKey r) r.now := by
  unfold handleCreateRun
  cases hg : mapGet st.cache (dedupKey r) with
  | none => rfl
  | some e =>
    have hge := h e hg
    show (if r.now - e.timestamp < DEDUP_WINDOW_MS then
            ({ id := e.runId, status := "created" }, st)
          else handleCreateRunFresh st r (dedupKey r) r.now) =
      handleCreateRunFresh st r (dedupKey r) r.now
    rw [if_neg (by omega)]

theorem handleCreateRun_dup_eq (st : RouteState) (r : RunRequest) (e : CacheEntry)
    (hg : mapGet st.cache (dedupKey r) = some e)
    (hwin : r.now - e.timestamp < DEDUP_WINDOW_MS) :
    handleCreateRun st r = (⟨e.runId, "created"⟩, st) := by
  unfold handleCreateRun
  rw [hg]
  show (if r.now - e.timestamp < DEDUP_WINDOW_MS then
          ({ id := e.runId, status := "created" }, st)
        else handleCreateRunFresh st r (dedupKey r) r.now) =
    ({ id := e.runId, status := "created" }, st)
  rw [if_pos hwin]

/-- **C5 (confirmed).**  Two requests with the same fingerprint, handled in
order within the dedup window from a state with no unexpired entry for
that fingerprint: the first inserts exactly one run record and answers
with its fresh id; the second answers with the *first* request's id and
status `created`, and inserts no second record. -/
theorem c5_dedup_single_run (st : RouteState) (r1 r2 : RunRequest)
    (hkey : dedupKey r1 = dedupKey r2)
    (hord : r1.now ≤ r2.now)
    (hwin : r2.now - r1.now < DEDUP_WINDOW_MS)
    (hfresh : ∀ e, mapGet st.cache (dedupKey r1) = some e →
      DEDUP_WINDOW_MS ≤ r1.now - e.timestamp) :
    (handleCreateRun st r1).1.id = r1.newRunId ∧
    (handleCreateRun st r1).1.status = "created" ∧
    (handleCreateRun st r1).2.records =
      st.records ++ [⟨r1.userId, r1.channelId, r1.threadId, r1.prompt, "running"⟩] ∧
    (handleCreateRun (handleCreateRun st r1).2 r2).1.id = r1.newRunId ∧
    (handleCreateRun (handleCreateRun st r1).2 r2).1.status = "created" ∧
    (handleCreateRun (handleCreateRun st r1).2 r2).2.records =
      (handleCreateRun st r1).2.records := by
  rw [handleCreateRun_fresh_eq st r1 hfresh]
  have hget : mapGet (handleCreateRunFresh st r1 (dedupKey r1) r1.now).2.cache
      (dedupKey r2) = some ⟨r1.now, r1.newRunId⟩ := by
    unfold handleCreateRunFresh
    rw [← hkey]
    exact mapGet_filter _ _ _ _ (mapGet_mapSet_self st.cache (dedupKey r1) _)
      (by simp)
  have hdup := handleCreateRun_dup_eq (handleCreateRunFresh st r1 (dedupKey r1) r1.now).2
    r2 ⟨r1.now, r1.newRunId⟩ hget hwin
  rw [hdup]
  exact ⟨rfl, rfl, rfl, rfl, rfl, rfl⟩

/-- Witness for `c5_dedup_single_run`: the same `"ping"` request from
`"u1"` on channel `"c1"`, resubmitted 500ms later from a fresh state. -/
theorem c5_dedup_single_run_witness :
    (handleCreateRun ⟨[], []⟩
        ⟨"u1", "discord", none, some "c1", none, "ping", 1000, "run-1"⟩).1.id =
      "run-1" ∧
    (handleCreateRun ⟨[], []⟩
        ⟨"u1", "discord", none, some "c1", none, "ping", 1000, "run-1"⟩).1.status =
      "created" ∧
    (handleCreateRun ⟨[], []⟩
        ⟨"u1", "discord", none, some "c1", none, "ping", 1000, "run-1"⟩).2.records =
      ([] : List RunRecord) ++ [⟨"u1", some "c1", none, "ping", "running"⟩] ∧
    (handleCreateRun
        (handleCreateRun ⟨[], []⟩
          ⟨"u1", "discord", none, some "c1", none, "ping", 1000, "run-1"⟩).2
        ⟨"u1", "discord", none, some "c1", none, "ping", 1500, "run-2"⟩).1.id =
      "run-1" ∧
    (handleCreateRun
        (handleCreateRun ⟨[], []⟩
          ⟨"u1", "discord", none, some "c1", none, "ping", 1000, "run-1"⟩).2
        ⟨"u1", "discord", none, some "c1", none, "ping", 1500, "run-2"⟩).1.status =
      "created" ∧
    (handleCreateRun
        (handleCreateRun ⟨[], []⟩
          ⟨"u1", "discord", none, some "c1", none, "ping", 1000, "run-1"⟩).2
        ⟨"u1", "discord", none, some "c1", none, "ping", 1500, "run-2"⟩).2.records =
      (handleCreateRun ⟨[], []⟩
        ⟨"u1", "discord", none, some "c1", none, "ping", 1000, "run-1"⟩).2.records :=
  c5_dedup_single_run ⟨[], []⟩
    ⟨"u1", "discord", none, some "c1", none, "ping", 1000, "run-1"⟩
    ⟨"u1", "discord", none, some "c1", none, "ping", 1500, "run-2"⟩
    (by decide) (by decide) (by decide)
    (fun e he => by simp [mapGet] at he)

/-! ## Lemmas about the event bus -/

theorem runBus_cons (st : BusState) (op : BusOp) (ops : List BusOp) :
    runBus st (op :: ops) =
      ((runBus (busStep st op).1 ops).1,
        (busStep st op).2.toList ++ (runBus (busStep st op).1 ops).2) := rfl

theorem busStep_emit (st : BusState) : busStep st .emit = emitRunEvent st := rfl

theorem emitRunEvent_nonempty (st : BusState) (h : ¬ st.subs.isEmpty = true) :
    emitRunEvent st =
      (⟨st.subs, some (st.counter.getD 0 + 1)⟩, some (st.counter.getD 0 + 1)) := by
  unfold emitRunEvent
  rw [if_neg h]

/-- **C4, counterexample.**  Sequence numbers do not survive the last
subscriber's disconnect: `onClose` deletes the run's `ids` entry, so after
subscriber `a` (which observed sequence 1) disconnects and `b` attaches,
the next publish is numbered 1 again — the run's lifetime sequence is
`[1, 1]`, not strictly increasing. -/
theorem c4_sequence_reset_counterexample :
    (runBus ⟨[], none⟩
      [.attach "a", .emit, .close "a", .attach "b", .emit]).2 = [1, 1] ∧
    ¬ List.Pairwise (fun a b => a < b)
      (runBus ⟨[], none⟩ [.attach "a", .emit, .close "a", .attach "b", .emit]).2 := by
  refine ⟨by decide, ?_⟩
  intro h
  rw [show (runBus ⟨[], none⟩
      [.attach "a", .emit, .close "a", .attach "b", .emit]).2 = [1, 1] from by decide] at h
  exact absurd ((List.pairwise_cons.mp h).1 1 (by simp)) (by omega)

/-- **C4 (amended).**  Sequence numbers are assigned by the bus at publish
time: `(ids.get(runId) ?? 0) + 1`, so numbering starts at 1 and each
publish with a live subscriber increments the stored counter by exactly
one — over any stretch of consecutive publishes the assigned numbers are
consecutive (strictly increasing, no gaps).  A publish with no subscriber
is dropped without consuming a number, and when the last subscriber
disconnects the counter entry is deleted, so numbering restarts at 1 for
later subscribers (see the counterexample). -/
theorem c4_sequence_numbers (st : BusState) (c : String) (n : Nat) :
    ((emitRunEvent st).2 =
      if st.subs.isEmpty then none else some (st.counter.getD 0 + 1)) ∧
    (st.subs.isEmpty = true → emitRunEvent st = (st, none)) ∧
    ((st.subs.erase c).isEmpty = true → closeSub st c = ⟨[], none⟩) ∧
    (¬ st.subs.isEmpty = true →
      (runBus st (List.replicate n .emit)).2 =
        (List.range n).map fun i => st.counter.getD 0 + i + 1) := by
  refine ⟨?_, ?_, ?_, ?_⟩
  · unfold emitRunEvent
    by_cases h : st.subs.isEmpty <;> simp [h]
  · intro h
    unfold emitRunEvent
    rw [if_pos h]
  · intro h
    unfold closeSub
    rw [if_pos h]
  · induction n generalizing st with
    | zero => intro h; rfl
    | succ n ih =>
      intro h
      rw [List.replicate_succ, runBus_cons, busStep_emit, emitRunEvent_nonempty st h]
      dsimp only
      rw [ih ⟨st.subs, some (st.counter.getD 0 + 1)⟩ h]
      dsimp only
      rw [List.range_succ_eq_map, List.map_cons, List.map_map, Option.toList_some,
        List.singleton_append, Nat.add_zero]
      congr 1
      apply List.map_congr_left
      intro i hi
      simp only [Function.comp_apply, Option.getD_some]
      omega

/-! ## Lemmas about allow-list matching -/

theorem midMatch_nil_eq (n : List Char) : midMatch [] n = n.isEmpty := by
  rw [midMatch.eq_def]

theorem midMatch_cons_eq (p : List Char) (ps : List (List Char)) (n : List Char) :
    midMatch (p :: ps) n =
      ((p.isPrefixOf n && midMatch ps (n.drop p.length)) ||
        (match n with | [] => false | _ :: n1 => midMatch (p :: ps) n1)) := by
  rw [midMatch.eq_def]

theorem rxMatch_cons (p : List Char) (ps : List (List Char)) (n : List Char) :
    rxMatch (p :: ps) n = (p.isPrefixOf n && midMatch ps (n.drop p.length)) := rfl

theorem midMatch_empty_piece (m : List Char) : midMatch [[]] m = true := by
  induction m with
  | nil => rw [midMatch_cons_eq]; simp [midMatch_nil_eq]
  | cons c m1 ih => rw [midMatch_cons_eq]; simp [ih]

theorem midMatch_single_eq (q n : List Char) :
    midMatch [q] n =
      ((q.isPrefixOf n && (n.drop q.length).isEmpty) ||
        (match n with | [] => false | _ :: n1 => midMatch [q] n1)) := by
  rw [midMatch_cons_eq, midMatch_nil_eq]

theorem midMatch_single_iff (q m : List Char) : midMatch [q] m = true ↔ q <:+ m := by
  induction m with
  | nil =>
    rw [midMatch_single_eq]
    constructor
    · intro h
      simp only [Bool.or_eq_true, Bool.and_eq_true] at h
      rcases h with ⟨h1, _⟩ | h2
      · rw [List.suffix_nil, ← List.prefix_nil]
        exact List.isPrefixOf_iff_prefix.mp h1
      · exact absurd h2 (by simp)
    · intro h
      rw [List.suffix_nil] at h
      subst h
      decide
  | cons c m1 ih =>
    rw [midMatch_single_eq, List.suffix_cons_iff]
    constructor
    · intro h
      rcases Bool.or_eq_true_iff.mp h with h1 | h2
      · left
        rw [Bool.and_eq_true] at h1
        have hpre := List.isPrefixOf_iff_prefix.mp h1.1
        have hlen : (c :: m1).length ≤ q.length :=
          List.drop_eq_nil_iff.mp (List.isEmpty_iff.mp h1.2)
        exact hpre.eq_of_length (Nat.le_antisymm hpre.length_le hlen)
      · right
        exact ih.mp h2
    · intro h
      rcases h with h1 | h2
      · apply Bool.or_eq_true_iff.mpr
        left
        rw [Bool.and_eq_true]
        refine ⟨List.isPrefixOf_iff_prefix.mpr (h1 ▸ List.prefix_refl _), ?_⟩
        rw [List.isEmpty_iff, List.drop_eq_nil_iff, h1]
      · exact Bool.or_eq_true_iff.mpr (Or.inr (ih.mpr h2))

theorem splitOnChar_cons (sep c : Char) (r : List Char) :
    splitOnChar sep (c :: r) =
      if c = sep then [] :: splitOnChar sep r
      else
        match splitOnChar sep r with
        | [] => [[c]]
        | h :: t => (c :: h) :: t := rfl

theorem splitOnChar_no_sep (sep : Char) (q : List Char) (hq : ∀ c ∈ q, ¬ c = sep) :
    splitOnChar sep q = [q] := by
  induction q with
  | nil => rfl
  | cons c q1 ih =>
    rw [splitOnChar_cons, if_neg (hq c (by simp)), ih fun d hd => hq d (by simp [hd])]

theorem splitOnChar_sep_append (sep : Char) (q r : List Char)
    (hq : ∀ c ∈ q, ¬ c = sep) :
    splitOnChar sep (q ++ sep :: r) = q :: splitOnChar sep r := by
  induction q with
  | nil => rw [List.nil_append, splitOnChar_cons, if_pos rfl]
  | cons c q1 ih =>
    rw [List.cons_append, splitOnChar_cons, if_neg (hq c (by simp)),
      ih fun d hd => hq d (by simp [hd])]

theorem jsToLower_ne_star (c : Char) (h : ¬ c = '*') : ¬ jsToLower c = '*' := by
  unfold jsToLower Char.toLower
  by_cases hr : c.toNat ≥ 65 ∧ c.toNat ≤ 90
  · rw [if_pos hr]
    intro heq
    have h2 := congrArg Char.toNat heq
    have hv : (c.toNat + 32).isValidChar := Or.inl (by omega)
    have h3 : (Char.ofNat (c.toNat + 32)).toNat = c.toNat + 32 := by
      unfold Char.ofNat
      rw [dif_pos hv]
      rfl
    rw [h3] at h2
    have h4 : Char.toNat '*' = 42 := rfl
    omega
  · rw [if_neg hr]
    exact h

theorem globMatch_one (name praw : List Char) :
    globMatch name [praw] =
      (if ((jsTrim praw).map jsToLower).isEmpty then false
       else if (jsTrim praw).map jsToLower = ['*'] then true
       else rxMatch (splitOnChar '*' ((jsTrim praw).map jsToLower))
         (name.map jsToLower)) := by
  unfold globMatch
  rw [List.any_cons, List.any_nil, Bool.or_false]

theorem globMatch_star (name : List Char) : globMatch name [['*']] = true := rfl

theorem getTools_empty (tools : ToolRegistry) : getOpenAIFunctionTools tools [] = [] := by
  unfold getOpenAIFunctionTools
  rw [show normalizePatterns [] = [] from rfl]
  rw [List.filter_eq_nil_iff.mpr fun t _ => by simp [globMatch]]
  rfl

theorem getTools_star (tools : ToolRegistry) :
    getOpenAIFunctionTools tools [['*']] =
      tools.map fun t => toOpenAiFunctionName t.1 t.2 := by
  unfold getOpenAIFunctionTools
  rw [show normalizePatterns [['*']] = [['*']] from rfl]
  have hfilter : (tools.filter fun t => globMatch (fqnOf t.1 t.2) [['*']]) = tools :=
    List.filter_eq_self.mpr fun t _ => globMatch_star (fqnOf t.1 t.2)
  rw [hfilter]

theorem globMatch_lower_invariant (name1 name2 : List Char) (pats : List (List Char))
    (h : name1.map jsToLower = name2.map jsToLower) :
    globMatch name1 pats = globMatch name2 pats := by
  unfold globMatch
  simp only [h]

theorem globMatch_prefix_iff (p name : List Char)
    (h1 : jsTrim (p ++ ['*']) = p ++ ['*']) (h2 : ∀ c ∈ p, ¬ c = '*') :
    globMatch name [p ++ ['*']] = true ↔
      (p.map jsToLower) <+: (name.map jsToLower) := by
  rw [globMatch_one, h1, List.map_append,
    show (['*'] : List Char).map jsToLower = ['*'] from rfl]
  have hqstar : ∀ c ∈ p.map jsToLower, ¬ c = '*' := by
    intro c hc
    rcases List.mem_map.mp hc with ⟨d, hd, rfl⟩
    exact jsToLower_ne_star d (h2 d hd)
  by_cases hq0 : p.map jsToLower = []
  · rw [hq0]
    simp
  · have hne : (p.map jsToLower ++ ['*']).isEmpty = false := by
      cases hc : p.map jsToLower <;> rfl
    have hpad : ¬ (p.map jsToLower ++ ['*']) = ['*'] := by
      intro he
      have hlen := congrArg List.length he
      simp only [List.length_append, List.length_cons, List.length_nil] at hlen
      exact hq0 (List.length_eq_zero.mp (by omega))
    rw [hne]
    simp only [Bool.false_eq_true, if_false, if_neg hpad]
    have hsp : splitOnChar '*' (p.map jsToLower ++ ['*']) = [p.map jsToLower, []] := by
      have h5 := splitOnChar_sep_append '*' (p.map jsToLower) [] hqstar
      simpa using h5
    rw [hsp, rxMatch_cons, midMatch_empty_piece, Bool.and_true]
    exact List.isPrefixOf_iff_prefix

theorem globMatch_suffix_iff (s name : List Char)
    (h1 : jsTrim ('*' :: s) = '*' :: s) (h2 : ∀ c ∈ s, ¬ c = '*') :
    globMatch name ['*' :: s] = true ↔
      (s.map jsToLower) <:+ (name.map jsToLower) := by
  rw [globMatch_one, h1, List.map_cons, show jsToLower '*' = '*' from rfl]
  have hqstar : ∀ c ∈ s.map jsToLower, ¬ c = '*' := by
    intro c hc
    rcases List.mem_map.mp hc with ⟨d, hd, rfl⟩
    exact jsToLower_ne_star d (h2 d hd)
  by_cases hq0 : s.map jsToLower = []
  · rw [hq0]
    simp
  · have hpad : ¬ ('*' :: s.map jsToLower) = ['*'] := by
      intro he
      have : s.map jsToLower = [] := by injection he
      exact hq0 this
    rw [show (('*' :: s.map jsToLower).isEmpty) = false from rfl]
    have hnilpre : ([] : List Char).isPrefixOf (name.map jsToLower) = true := by
      cases name.map jsToLower <;> rfl
    simp only [Bool.false_eq_true, if_false, if_neg hpad]
    rw [splitOnChar_cons, if_pos rfl, splitOnChar_no_sep '*' _ hqstar, rxMatch_cons,
      hnilpre, Bool.true_and, List.length_nil, List.drop_zero]
    exact midMatch_single_iff _ _

/-- **C6, counterexample.**  An empty allow-list matches *nothing*, not
everything: with one registered tool, `getOpenAIFunctionTools` with an
empty pattern list returns no tools (`[].some(...)` is false for every
name), while `['*']` returns the full registry. -/
theorem c6_empty_allowlist_counterexample :
    getOpenAIFunctionTools [("srv".data, "t1".data)] [] = [] ∧
    getOpenAIFunctionTools [("srv".data, "t1".data)] [['*']] =
      [toOpenAiFunctionName "srv".data "t1".data] ∧
    ¬ getOpenAIFunctionTools [("srv".data, "t1".data)] [] =
      [toOpenAiFunctionName "srv".data "t1".data] := by
  refine ⟨by decide, by decide, by decide⟩

/-- **C6 (amended).**  An empty allow-list pattern set returns *no* tools
(the empty pattern list matches nothing); a `*` pattern returns every
registered tool; matching is case-insensitive against the fully-qualified
name; and a star-free, trim-stable `prefix*` (resp. `*suffix`) pattern
matches exactly the names whose lowercase form starts with the lowercase
pattern prefix (resp. ends with the suffix). -/
theorem c6_allowlist_matching :
    (∀ tools : ToolRegistry, getOpenAIFunctionTools tools [] = []) ∧
    (∀ tools : ToolRegistry, getOpenAIFunctionTools tools [['*']] =
      tools.map fun t => toOpenAiFunctionName t.1 t.2) ∧
    (∀ (name1 name2 : List Char) (pats : List (List Char)),
      name1.map jsToLower = name2.map jsToLower →
      globMatch name1 pats = globMatch name2 pats) ∧
    (∀ p name : List Char, jsTrim (p ++ ['*']) = p ++ ['*'] → (∀ c ∈ p, ¬ c = '*') →
      (globMatch name [p ++ ['*']] = true ↔
        (p.map jsToLower) <+: (name.map jsToLower))) ∧
    (∀ s name : List Char, jsTrim ('*' :: s) = '*' :: s → (∀ c ∈ s, ¬ c = '*') →
      (globMatch name ['*' :: s] = true ↔
        (s.map jsToLower) <:+ (name.map jsToLower))) :=
  ⟨getTools_empty, getTools_star, globMatch_lower_invariant,
    globMatch_prefix_iff, globMatch_suffix_iff⟩

/-- Witness for `c6_allowlist_matching` on a one-tool registry and the
pattern `gmail.*` against the name `gmail.send_email`. -/
theorem c6_allowlist_matching_witness :
    getOpenAIFunctionTools [("srv".data, "t1".data)] [] = [] ∧
    getOpenAIFunctionTools [("srv".data, "t1".data)] [['*']] =
      [("srv".data, "t1".data)].map (fun t => toOpenAiFunctionName t.1 t.2) ∧
    jsTrim ("gmail.".data ++ ['*']) = "gmail.".data ++ ['*'] ∧
    (∀ c ∈ "gmail.".data, ¬ c = '*') ∧
    globMatch "gmail.send_email".data ["gmail.".data ++ ['*']] = true :=
  ⟨c6_allowlist_matching.1 _, c6_allowlist_matching.2.1 _, by decide, by decide,
    (c6_allowlist_matching.2.2.2.1 "gmail.".data "gmail.send_email".data
      (by decide) (by decide)).mpr (by decide)⟩

/-- Witness for `c4_sequence_numbers` on a bus with one subscriber, no
counter yet, and three consecutive publishes: the assigned sequence
numbers are 1, 2, 3. -/
theorem c4_sequence_numbers_witness :
    ¬ ([("a" : String)]).isEmpty = true ∧
    (runBus ⟨["a"], none⟩ (List.replicate 3 .emit)).2 =
      (List.range 3).map (fun i => (none : Option Nat).getD 0 + i + 1) ∧
    (runBus ⟨["a"], none⟩ (List.replicate 3 .emit)).2 = [1, 2, 3] :=
  ⟨by decide, (c4_sequence_numbers ⟨["a"], none⟩ "a" 3).2.2.2 (by decide), by decide⟩

end Discourse
